import Mathlib

set_option maxHeartbeats 1000000
set_option maxRecDepth 4000

/-!
Verification of the credit-risk intake engine (apply_patch.py and v5_runner.py).

The state document threaded through the program is a JSON-like tree.  Python
dictionaries are modelled as insertion-ordered association lists; dictionary
keys may be strings or integers, because `set_by_path` can store a value under
an integer key of an existing dictionary (Python `ref[last] = value` with an
integer `last`).  Python exceptions are modelled by `Option`: a function that
can raise returns `none` on the raising paths.  Machine integers are `Int`
(Python integers are unbounded, so no wrap-around is modelled).  Python string
methods are modelled over ASCII; the inputs handled by the program are ASCII.
-/

/-- Key of a Python dictionary (string or integer), also a parsed path token. -/
inductive JKey where
  | s (v : String)
  | i (v : Int)
deriving DecidableEq, Repr

/-- JSON-like value: the shape of the state document and of patch objects.
JSON floats are not modelled; the program stores only integers, strings,
lists and objects at the paths it touches. -/
inductive JValue where
  | null
  | bool (b : Bool)
  | int (n : Int)
  | str (s : String)
  | arr (items : List JValue)
  | obj (entries : List (JKey × JValue))
deriving Repr

mutual

/-- Decidable equality for JValue (the nested inductive blocks deriving). -/
def JValue.decEq : (a b : JValue) → Decidable (a = b)
  | .null, .null => isTrue rfl
  | .bool x, .bool y =>
      if h : x = y then isTrue (by rw [h])
      else isFalse (by intro hc; cases hc; exact h rfl)
  | .int x, .int y =>
      if h : x = y then isTrue (by rw [h])
      else isFalse (by intro hc; cases hc; exact h rfl)
  | .str x, .str y =>
      if h : x = y then isTrue (by rw [h])
      else isFalse (by intro hc; cases hc; exact h rfl)
  | .arr xs, .arr ys =>
      match JValue.decEqList xs ys with
      | isTrue h => isTrue (by rw [h])
      | isFalse h => isFalse (by intro hc; cases hc; exact h rfl)
  | .obj xs, .obj ys =>
      match JValue.decEqEntries xs ys with
      | isTrue h => isTrue (by rw [h])
      | isFalse h => isFalse (by intro hc; cases hc; exact h rfl)
  | .null, .bool _ => isFalse (by intro h; cases h)
  | .null, .int _ => isFalse (by intro h; cases h)
  | .null, .str _ => isFalse (by intro h; cases h)
  | .null, .arr _ => isFalse (by intro h; cases h)
  | .null, .obj _ => isFalse (by intro h; cases h)
  | .bool _, .null => isFalse (by intro h; cases h)
  | .bool _, .int _ => isFalse (by intro h; cases h)
  | .bool _, .str _ => isFalse (by intro h; cases h)
  | .bool _, .arr _ => isFalse (by intro h; cases h)
  | .bool _, .obj _ => isFalse (by intro h; cases h)
  | .int _, .null => isFalse (by intro h; cases h)
  | .int _, .bool _ => isFalse (by intro h; cases h)
  | .int _, .str _ => isFalse (by intro h; cases h)
  | .int _, .arr _ => isFalse (by intro h; cases h)
  | .int _, .obj _ => isFalse (by intro h; cases h)
  | .str _, .null => isFalse (by intro h; cases h)
  | .str _, .bool _ => isFalse (by intro h; cases h)
  | .str _, .int _ => isFalse (by intro h; cases h)
  | .str _, .arr _ => isFalse (by intro h; cases h)
  | .str _, .obj _ => isFalse (by intro h; cases h)
  | .arr _, .null => isFalse (by intro h; cases h)
  | .arr _, .bool _ => isFalse (by intro h; cases h)
  | .arr _, .int _ => isFalse (by intro h; cases h)
  | .arr _, .str _ => isFalse (by intro h; cases h)
  | .arr _, .obj _ => isFalse (by intro h; cases h)
  | .obj _, .null => isFalse (by intro h; cases h)
  | .obj _, .bool _ => isFalse (by intro h; cases h)
  | .obj _, .int _ => isFalse (by intro h; cases h)
  | .obj _, .str _ => isFalse (by intro h; cases h)
  | .obj _, .arr _ => isFalse (by intro h; cases h)

/-- Decidable equality for lists of JValue. -/
def JValue.decEqList : (xs ys : List JValue) → Decidable (xs = ys)
  | [], [] => isTrue rfl
  | [], _ :: _ => isFalse (by intro h; cases h)
  | _ :: _, [] => isFalse (by intro h; cases h)
  | x :: xs, y :: ys =>
      match JValue.decEq x y, JValue.decEqList xs ys with
      | isTrue h1, isTrue h2 => isTrue (by rw [h1, h2])
      | isFalse h1, _ => isFalse (by intro hc; cases hc; exact h1 rfl)
      | _, isFalse h2 => isFalse (by intro hc; cases hc; exact h2 rfl)

/-- Decidable equality for dictionary entry lists. -/
def JValue.decEqEntries : (xs ys : List (JKey × JValue)) → Decidable (xs = ys)
  | [], [] => isTrue rfl
  | [], _ :: _ => isFalse (by intro h; cases h)
  | _ :: _, [] => isFalse (by intro h; cases h)
  | (k1, v1) :: xs, (k2, v2) :: ys =>
      if hk : k1 = k2 then
        match JValue.decEq v1 v2, JValue.decEqEntries xs ys with
        | isTrue hv, isTrue ht => isTrue (by rw [hk, hv, ht])
        | isFalse hv, _ => isFalse (by intro hc; cases hc; exact hv rfl)
        | _, isFalse ht => isFalse (by intro hc; cases hc; exact ht rfl)
      else isFalse (by intro hc; cases hc; exact hk rfl)

end

instance : DecidableEq JValue := JValue.decEq

/-- Lookup in an insertion-ordered dictionary (first matching key). -/
def objGet : List (JKey × JValue) → JKey → Option JValue
  | [], _ => none
  | (k, v) :: rest, key => if k = key then some v else objGet rest key

/-- Python dictionary assignment: update in place, or append a new entry. -/
def objSet : List (JKey × JValue) → JKey → JValue → List (JKey × JValue)
  | [], key, v => [(key, v)]
  | (k, w) :: rest, key, v =>
      if k = key then (k, v) :: rest else (k, w) :: objSet rest key v

/-- Python dict.pop: remove the entry with the given key (keys are unique). -/
def objRemove : List (JKey × JValue) → JKey → List (JKey × JValue)
  | [], _ => []
  | (k, w) :: rest, key => if k = key then rest else (k, w) :: objRemove rest key

/-- Python truthiness of a JSON value. -/
def isTruthy : JValue → Bool
  | .null => false
  | .bool b => b
  | .int n => n != 0
  | .str s => s != ""
  | .arr l => !l.isEmpty
  | .obj es => !es.isEmpty

/-- Whitespace characters recognised by Python str.strip and regex \s
(ASCII subset; Unicode whitespace is not modelled). -/
def pyIsSpaceChar (c : Char) : Bool :=
  c = ' ' || c = '\t' || c = '\n' || c = '\x0d' || c = '\x0b' || c = '\x0c'

/-- Python str.strip(): drop leading and trailing whitespace. -/
def pyStrip (s : String) : String :=
  String.mk (((s.toList.dropWhile pyIsSpaceChar).reverse.dropWhile pyIsSpaceChar).reverse)

/-- Python str.lower() over ASCII letters. -/
def pyLowerChar (c : Char) : Char :=
  if 'A' ≤ c ∧ c ≤ 'Z' then Char.ofNat (c.toNat + 32) else c

/-- Python str.lower() over ASCII letters. -/
def pyLower (s : String) : String :=
  String.mk (s.toList.map pyLowerChar)

/-- Remove every occurrence of one character (models str.replace(c, "")). -/
def removeChar (s : String) (c : Char) : String :=
  String.mk (s.toList.filter (fun d => d ≠ c))

/-- Prefix test on character lists. -/
def isPref : List Char → List Char → Bool
  | [], _ => true
  | _ :: _, [] => false
  | a :: as, b :: bs => a = b && isPref as bs

/-- Python str.startswith (over characters). -/
def strStartsWith (s pre : String) : Bool :=
  isPref pre.toList s.toList

/-- Splitting a character list on a separator (Python str.split with a
one-character separator: an empty input yields one empty piece). -/
def splitOnCharGo (sep : Char) : List Char → List Char → List (List Char)
  | [], acc => [acc.reverse]
  | c :: rest, acc =>
      if c = sep then acc.reverse :: splitOnCharGo sep rest []
      else splitOnCharGo sep rest (c :: acc)

/-- Python str.split with a one-character separator. -/
def splitOnChar (s : String) (sep : Char) : List String :=
  (splitOnCharGo sep s.toList []).map String.mk

/-- Replacement of every non-overlapping occurrence, left to right (Python
str.replace with a nonempty pattern). -/
def strReplaceGo (needle repl : List Char) : List Char → List Char
  | [] => []
  | c :: rest =>
      if isPref needle (c :: rest) ∧ needle ≠ [] then
        repl ++ strReplaceGo needle repl (rest.drop (needle.length - 1))
      else c :: strReplaceGo needle repl rest
termination_by l => l.length
decreasing_by
  · simp only [List.length_cons]
    have := List.length_drop (needle.length - 1) rest
    omega
  · simp [List.length_cons]

/-- Python str.replace.  An empty pattern (which Python treats as inserting
between every character) is not modelled; no caller uses one. -/
def strReplace (s old new : String) : String :=
  if old.toList = [] then s
  else String.mk (strReplaceGo old.toList new.toList s.toList)

/-- Value of a nonempty all-digit character list. -/
def digitsToNat (ds : List Char) : Option Nat :=
  if ds.isEmpty then none
  else if ds.all Char.isDigit then
    some (ds.foldl (fun a c => a * 10 + (c.toNat - 48)) 0)
  else none

/-- Python int(str): optional surrounding whitespace, optional sign, a
nonempty digit run.  (Digit-group underscores accepted by Python are not
modelled; no path in this program uses them.) -/
def pyInt (s : String) : Option Int :=
  let cs := ((s.toList.dropWhile pyIsSpaceChar).reverse.dropWhile pyIsSpaceChar).reverse
  match cs with
  | '-' :: ds => (digitsToNat ds).map (fun n => -(n : Int))
  | '+' :: ds => (digitsToNat ds).map (fun n => (n : Int))
  | ds => (digitsToNat ds).map (fun n => (n : Int))

/-- Python list indexing with negative-index wrap-around; none is IndexError. -/
def pyListGet {α : Type} (l : List α) (n : Int) : Option α :=
  if 0 ≤ n then l.get? n.toNat
  else if 0 ≤ (l.length : Int) + n then l.get? ((l.length : Int) + n).toNat
  else none

/-- Python string indexing: a one-character string, none is IndexError. -/
def pyStrGet (s : String) (n : Int) : Option String :=
  (pyListGet s.toList n).map (fun c => String.mk [c])

/-- Embeds v5_runner _parse_path for one dot-separated token: a token written
name[index] yields the name and the integer index, any other token is a plain
key.  A token with several brackets or a non-integer index raises (none). -/
def parseToken (tok : String) : Option (List JKey) :=
  if tok.toList.contains '[' ∧ tok.toList.getLast? = some ']' then
    match splitOnChar (String.mk tok.toList.dropLast) '[' with
    | [name, idx] => (pyInt idx).map (fun n => [JKey.s name, JKey.i n])
    | _ => none
  else
    some [JKey.s tok]

/-- Embeds v5_runner._parse_path: split on dots, expand name[index] tokens. -/
def parse_path (path : String) : Option (List JKey) :=
  (splitOnChar path '.').foldr
    (fun tok acc =>
      match parseToken tok, acc with
      | some ps, some rest => some (ps ++ rest)
      | _, _ => none)
    (some [])

/-- One navigation step of v5_runner.get_by_path (ref[p] with every exception
mapped to a null overall result, matching the except clause). -/
def getStep (ref : JValue) (p : JKey) : JValue :=
  match ref, p with
  | .obj es, key => (objGet es key).getD .null
  | .arr l, .i n => (pyListGet l n).getD .null
  | .arr _, .s _ => .null
  | .str s, .i n =>
      match pyStrGet s n with
      | some c => .str c
      | none => .null
  | .str _, .s _ => .null
  | _, _ => .null

/-- Embeds v5_runner.get_by_path: walk the parsed parts; any error during
parsing or navigation returns None (here JValue.null, which is what the
Python function returns on its exception path and also for a stored null). -/
def get_by_path (state : JValue) (path : String) : JValue :=
  match parse_path path with
  | none => .null
  | some ps => ps.foldl getStep state

/-- Pad a list on the right with a fill value up to the given length. -/
def listPadTo (l : List JValue) (k : Nat) (fill : JValue) : List JValue :=
  l ++ List.replicate (k - l.length) fill

/-- Final assignment step of v5_runner.set_by_path.  On a list: pad with None
until the index is addressable, then assign.  On a dictionary with an integer
index: Python only appends (and crashes) when len(ref) <= last, otherwise it
stores the value under the integer key.  Everything else raises. -/
def setLast (ref : JValue) (last : JKey) (v : JValue) : Option JValue :=
  match ref, last with
  | .obj es, .s k => some (.obj (objSet es (.s k) v))
  | .obj es, .i n =>
      if (es.length : Int) ≤ n then none
      else some (.obj (objSet es (.i n) v))
  | .arr l, .i n =>
      if 0 ≤ n then
        some (.arr ((listPadTo l (n.toNat + 1) .null).set n.toNat v))
      else if 0 ≤ (l.length : Int) + n then
        some (.arr (l.set ((l.length : Int) + n).toNat v))
      else none
  | _, _ => none

/-- Navigation plus final assignment of v5_runner.set_by_path over parsed
parts.  String keys navigate via dict.setdefault (vivifying a list or dict
according to the next token); integer parts pad lists with empty dicts.  A
structural mismatch raises (none).  Indexing into a string yields a fresh
one-character string, so a (necessarily failing) recursion cannot change the
parent. -/
def setGo : JValue → List JKey → JValue → Option JValue
  | ref, [last], v => setLast ref last v
  | ref, p :: nxt :: rest, v =>
      match ref, p with
      | .obj es, .s k =>
          let dflt : JValue := match nxt with | .i _ => .arr [] | .s _ => .obj []
          let c := (objGet es (.s k)).getD dflt
          (setGo c (nxt :: rest) v).map (fun c2 => .obj (objSet es (.s k) c2))
      | .obj es, .i n =>
          if (es.length : Int) ≤ n then none
          else
            match objGet es (.i n) with
            | some c => (setGo c (nxt :: rest) v).map (fun c2 => .obj (objSet es (.i n) c2))
            | none => none
      | .arr l, .i n =>
          if 0 ≤ n then
            let l2 := listPadTo l (n.toNat + 1) (.obj [])
            match l2.get? n.toNat with
            | some c => (setGo c (nxt :: rest) v).map (fun c2 => .arr (l2.set n.toNat c2))
            | none => none
          else if 0 ≤ (l.length : Int) + n then
            match l.get? ((l.length : Int) + n).toNat with
            | some c =>
                (setGo c (nxt :: rest) v).map
                  (fun c2 => .arr (l.set ((l.length : Int) + n).toNat c2))
            | none => none
          else none
      | .str s, .i n =>
          if 0 ≤ n ∧ (s.length : Int) ≤ n then none
          else
            match pyStrGet s n with
            | some c => (setGo (.str c) (nxt :: rest) v).map (fun _ => .str s)
            | none => none
      | _, _ => none
  | _, [], _ => none

/-- Embeds v5_runner.set_by_path; none models an uncaught Python exception. -/
def set_by_path (state : JValue) (path : String) (value : JValue) : Option JValue :=
  match parse_path path with
  | none => none
  | some ps => setGo state ps value

/-! ## apply_patch.py -/

/-- Outcome record appended by apply_patch.apply_patches for one patch. -/
structure PatchOutcome where
  status : String
  patch : JValue
deriving DecidableEq, Repr

/-- Embeds the loop body of apply_patch.apply_patches for one patch: read the
operation, path and value, normalize a slash path, run the sensitive-flag
check (whose failure only logs a warning), then append the outcome.  The
blocked append and the continue sit at loop-body indentation, outside the
sensitive-flag conditional, so they run for every patch and everything after
them in the body (the ignored case, set_nested_value, the success append) is
unreachable.  none models an uncaught exception (non-dictionary patch,
non-string path value, or non-string justification when the flag check
reads it). -/
def applyPatchStep (state : JValue) (patch : JValue) : Option (PatchOutcome × JValue) :=
  match patch with
  | .obj es =>
      let val := (objGet es (.s "value")).getD .null
      match (objGet es (.s "path")).getD (.str "") with
      | .str p =>
          let normalized :=
            if strStartsWith p "/" then
              strReplace (String.mk (p.toList.dropWhile (fun c => c = '/'))) "/" "."
            else p
          let patch2 :=
            if strStartsWith p "/" then JValue.obj (objSet es (.s "path") (.str normalized))
            else patch
          if normalized = "workflow_flags.expense_primer_shown" ∧ val = .bool true then
            match (objGet es (.s "justification")).getD (.str "") with
            | .str _ => some (⟨"blocked", patch2⟩, state)
            | _ => none
          else some (⟨"blocked", patch2⟩, state)
      | _ => none
  | _ => none

/-- Embeds apply_patch.apply_patches: fold the per-patch step over the batch
in sequence order, threading the state. -/
def apply_patches (state : JValue) (patches : List JValue) : Option (List PatchOutcome × JValue) :=
  patches.foldl
    (fun acc patch =>
      match acc with
      | none => none
      | some (results, st) =>
          match applyPatchStep st patch with
          | some (out, st2) => some (results ++ [out], st2)
          | none => none)
    (some ([], state))

/-- Recursion of apply_patch.set_nested_value over the dot-separated keys:
non-dictionary intermediates are overwritten with fresh dictionaries; append
replaces a missing or non-list target with a fresh list. -/
def snvGo : JValue → List String → JValue → String → Option JValue
  | .obj es, [k], v, op =>
      if op = "append" then
        let cur := match objGet es (.s k) with
          | some (.arr l) => l
          | _ => []
        some (.obj (objSet es (.s k) (.arr (cur ++ [v]))))
      else some (.obj (objSet es (.s k) v))
  | .obj es, k :: rest, v, op =>
      let child := match objGet es (.s k) with
        | some (.obj ces) => JValue.obj ces
        | _ => JValue.obj []
      (snvGo child rest v op).map (fun c2 => .obj (objSet es (.s k) c2))
  | _, _, _, _ => none

/-- Embeds apply_patch.set_nested_value.  Unreachable from apply_patches (the
unconditional blocked append precedes its call); embedded for completeness. -/
def set_nested_value (data : JValue) (path : String) (value : JValue) (op : String) : Option JValue :=
  snvGo data (splitOnChar path '.') value op

/-! ## v5_runner.py: schema structures and workflow helpers -/

/-- Field descriptor from the workflow schema (a field_meta dictionary). -/
structure FieldMeta where
  path : String
  type : String
  question : String := ""
  values : List String := []
  min : Option Int := none
  max : Option Int := none
deriving DecidableEq, Repr

/-- section_repeat entry of a stage. -/
structure SectionRepeat where
  array_path : String
  repeat_prompt : String
deriving DecidableEq, Repr

/-- One stage of the workflow schema. -/
structure Stage where
  fields : List FieldMeta
  section_repeat : Option SectionRepeat := none
deriving DecidableEq, Repr

/-- The workflow schema. -/
structure Workflow where
  stages : List Stage
deriving DecidableEq, Repr

/-- Embeds v5_runner.flatten_fields. -/
def flatten_fields (workflow : Workflow) : List FieldMeta :=
  workflow.stages.foldl (fun acc st => acc ++ st.fields) []

/-- Embeds v5_runner.find_section_start: index of the first field whose path
starts with the array path followed by the literal [0] placeholder. -/
def find_section_start (meta_fields : List FieldMeta) (array_path : String) : Option Nat :=
  meta_fields.findIdx? (fun f => strStartsWith f.path (array_path ++ "[0]"))

/-- Embeds v5_runner.is_last_field_of_section.  none models the IndexError
when idx+1 is negative and out of range (Python indexing wraps negatives). -/
def is_last_field_of_section (meta_fields : List FieldMeta) (idx : Int)
    (section_fields : List String) : Option Bool :=
  if (meta_fields.length : Int) ≤ idx + 1 then some true
  else
    match pyListGet meta_fields (idx + 1) with
    | some f => some (!section_fields.contains f.path)
    | none => none

/-- Embeds v5_runner.workflow_stage_repeat_prompt. -/
def workflow_stage_repeat_prompt (workflow : Workflow) (array_path : String) : String :=
  match workflow.stages.find? (fun st =>
      match st.section_repeat with
      | some r => r.array_path = array_path
      | none => false) with
  | some st =>
      match st.section_repeat with
      | some r => r.repeat_prompt
      | none => "Do you have another Item?"
  | none => "Do you have another Item?"

/-! ## v5_runner.py: workflow_runtime access -/

/-- Python state.setdefault("workflow_runtime", dict()): the runtime
dictionary entries and the possibly extended state.  A stored non-dictionary
runtime makes every later dictionary operation on it raise, so it is
collapsed to none here; a non-dictionary state raises at setdefault. -/
def ensureRuntime (state : JValue) : Option (List (JKey × JValue) × JValue) :=
  match state with
  | .obj es =>
      match objGet es (.s "workflow_runtime") with
      | some (.obj rt) => some (rt, .obj es)
      | some _ => none
      | none => some ([], .obj (objSet es (.s "workflow_runtime") (.obj [])))
  | _ => none

/-- Store a modified workflow_runtime dictionary back into the state. -/
def writeRuntime (state : JValue) (rt : List (JKey × JValue)) : Option JValue :=
  match state with
  | .obj es => some (.obj (objSet es (.s "workflow_runtime") (.obj rt)))
  | _ => none

/-- Embeds v5_runner.get_active_index including both setdefault insertions;
returns the stored value (any JValue) and the updated state. -/
def get_active_index (state : JValue) : Option (JValue × JValue) :=
  match ensureRuntime state with
  | some (rt, st1) =>
      match objGet rt (.s "active_index") with
      | some v => some (v, st1)
      | none =>
          (writeRuntime st1 (objSet rt (.s "active_index") (.int 0))).map
            (fun st2 => (JValue.int 0, st2))
  | none => none

/-- Embeds v5_runner.set_active_index.  The index is stored as given: the
affirmative repeat branch can store None when find_section_start fails. -/
def set_active_index (state : JValue) (idx : JValue) : Option JValue :=
  match ensureRuntime state with
  | some (rt, st1) => writeRuntime st1 (objSet rt (.s "active_index") idx)
  | none => none

/-- Embeds v5_runner.advance_field; adding 1 to a non-integer active_index
raises (Python booleans are integers, so they advance too). -/
def advance_field (state : JValue) : Option JValue :=
  match get_active_index state with
  | some (.int n, st1) => set_active_index st1 (.int (n + 1))
  | some (.bool b, st1) => set_active_index st1 (.int ((if b then 1 else 0) + 1))
  | _ => none

/-- Python f-string rendering of a dictionary key appearing in array_index. -/
def pyFormatKey : JKey → String
  | .s s => s
  | .i n => toString n

/-- Python f-string rendering of an array_index value.  Strings render
verbatim, integers in decimal, booleans True and False, null None; the
program only ever stores integers here, so containers get a placeholder. -/
def pyFormat : JValue → String
  | .str s => s
  | .int n => toString n
  | .bool b => if b then "True" else "False"
  | .null => "None"
  | .arr _ => "[unmodelled]"
  | .obj _ => "[unmodelled]"

/-- Embeds v5_runner.resolve_dynamic_path: substitute every recorded repeat
index for the literal [0] placeholder of its array path, in the insertion
order of the array_index dictionary. -/
def resolve_dynamic_path (state : JValue) (path : String) : Option String :=
  match state with
  | .obj es =>
      match (objGet es (.s "workflow_runtime")).getD (.obj []) with
      | .obj rt =>
          match (objGet rt (.s "array_index")).getD (.obj []) with
          | .obj idxs =>
              some (idxs.foldl
                (fun p kv =>
                  strReplace p (pyFormatKey kv.1 ++ "[0]")
                    (pyFormatKey kv.1 ++ "[" ++ pyFormat kv.2 ++ "]"))
                path)
          | _ => none
      | _ => none
  | _ => none

/-- Embeds v5_runner.field_filled. -/
def field_filled (state : JValue) (path : String) : Option Bool :=
  (resolve_dynamic_path state path).map (fun rp =>
    match get_by_path state rp with
    | .null => false
    | .str s => pyStrip s ≠ ""
    | _ => true)

/-! ## v5_runner.py: enum normalization and deterministic capture -/

/-- Keep only lowercase letters and spaces: models the re.sub removing
punctuation in normalize_enum (applied after lowercasing). -/
def keepLetters (s : String) : String :=
  String.mk (s.toList.filter (fun c => ('a' ≤ c ∧ c ≤ 'z') ∨ c = ' '))

/-- Python str.replace of underscores by spaces. -/
def underscoresToSpaces (s : String) : String :=
  String.mk (s.toList.map (fun c => if c = '_' then ' ' else c))

/-- Embeds v5_runner.normalize_enum.  difflib.get_close_matches is abstracted
by the gcm argument (the theorems below hold for every choice of gcm; by the
difflib contract its result list is drawn from the candidate list). -/
def normalize_enum (gcm : String → List String → List String) (value : String)
    (allowed : List String) : Option String :=
  let v1 := pyStrip (pyLower value)
  let v2 := keepLetters v1
  match allowed.find? (fun v => v2 = underscoresToSpaces v) with
  | some v => some v
  | none =>
      match gcm v2 (allowed.map underscoresToSpaces) with
      | [] => none
      | matched :: _ =>
          match allowed.find? (fun v => matched = underscoresToSpaces v) with
          | some v => some v
          | none => none

/-- Characters of the range-separator class (dash, slash, t, o). -/
def isRangeSepChar (c : Char) : Bool :=
  c = '-' || c = '/' || c = 't' || c = 'o'

/-- Anchored match of the range pattern: one or more digits, spaces, one or
more range-separator characters, spaces, at least one digit.  The classes
are pairwise disjoint, so the greedy scan without backtracking is exact. -/
def rangeAt (cs : List Char) : Bool :=
  match cs with
  | [] => false
  | c :: _ =>
      c.isDigit &&
      (match (cs.dropWhile Char.isDigit).dropWhile pyIsSpaceChar with
       | [] => false
       | d :: _ =>
           isRangeSepChar d &&
           (match (((cs.dropWhile Char.isDigit).dropWhile pyIsSpaceChar).dropWhile
                     isRangeSepChar).dropWhile pyIsSpaceChar with
            | [] => false
            | e :: _ => e.isDigit))

/-- Embeds re.search of the numeric-range pattern: some suffix matches. -/
def hasRangePattern (s : String) : Bool :=
  s.toList.tails.any rangeAt

/-- Hedging qualifiers rejected by the currency branch (the source list; the
entry rough also covers roughly). -/
def hedgeWords : List String :=
  ["about", "around", "rough", "approx", "maybe", "depends"]

/-- Python substring containment: needle in haystack. -/
def containsSub (hay needle : String) : Bool :=
  hay.toList.tails.any (fun t => isPref needle.toList t)

/-- Result of the currency fullmatch: the digits of the captured number and
whether the k multiplier matched. -/
structure CurrencyMatch where
  intDigits : List Char
  fracDigits : List Char
  hasK : Bool
deriving DecidableEq, Repr

/-- Embeds re.fullmatch of the currency pattern: optional dollar sign,
spaces, digits with an optional decimal part, spaces, optional k, end of
string.  The token classes are disjoint, so the greedy deterministic parse is
exact.  Since the match covers the whole text, the source check k in text is
equivalent to the optional k having matched. -/
def currencyFullmatch (s : String) : Option CurrencyMatch :=
  let cs0 := s.toList
  let cs1 := match cs0 with
    | '$' :: rest => rest
    | _ => cs0
  let cs2 := cs1.dropWhile pyIsSpaceChar
  let ds := cs2.takeWhile Char.isDigit
  if ds.isEmpty then none
  else
    let r1 := cs2.dropWhile Char.isDigit
    let fs := match r1 with
      | '.' :: rest => rest.takeWhile Char.isDigit
      | _ => []
    let r2 := if fs.isEmpty then r1 else (match r1 with
      | _ :: rest => rest.dropWhile Char.isDigit
      | [] => r1)
    let r3 := r2.dropWhile pyIsSpaceChar
    match r3 with
    | 'k' :: rest => if rest.isEmpty then some ⟨ds, fs, true⟩ else none
    | rest => if rest.isEmpty then some ⟨ds, fs, false⟩ else none

/-- Digit list to a natural number (the list is all digits by construction). -/
def digitsVal (ds : List Char) : Nat :=
  ds.foldl (fun a c => a * 10 + (c.toNat - 48)) 0

/-- Committed integer amount of a currency match: float of the captured
number, times 1000 when the k multiplier matched, truncated by int().
Python float arithmetic is modelled as exact rational arithmetic; the two
agree on every statement proved below. -/
def currencyAmount (m : CurrencyMatch) : Int :=
  let q : ℚ := (digitsVal m.intDigits : ℚ) +
    (digitsVal m.fracDigits : ℚ) / ((10 : ℚ) ^ m.fracDigits.length)
  let q2 := if m.hasK then q * 1000 else q
  ⌊q2⌋

/-- Python str.isdigit over ASCII: nonempty and all decimal digits (the
Unicode digit categories Python also accepts are not modelled). -/
def pyIsDigitStr (s : String) : Bool :=
  !s.toList.isEmpty && s.toList.all (fun c => '0' ≤ c ∧ c ≤ '9')

/-- Two-digit day or month parse: a two-digit prefix whose value lies in
1..maxv (leading zero allowed), exactly the two-digit alternatives of the
source regexes and of the strptime format directives. -/
def parse2Digit (cs : List Char) (maxv : Nat) : Option (Nat × List Char) :=
  match cs with
  | a :: b :: rest =>
      if a.isDigit ∧ b.isDigit then
        let n := (a.toNat - 48) * 10 + (b.toNat - 48)
        if 1 ≤ n ∧ n ≤ maxv then some (n, rest) else none
      else none
  | _ => none

/-- Single-digit day or month parse (1..9). -/
def parse1Digit (cs : List Char) : Option (Nat × List Char) :=
  match cs with
  | a :: rest => if '1' ≤ a ∧ a ≤ '9' then some (a.toNat - 48) |>.map (fun n => (n, rest)) else none
  | _ => none

/-- Day or month followed by a slash, with the backtracking of the source
alternations: try the two-digit form, then the one-digit form. -/
def parseNumSlash (cs : List Char) (maxv : Nat) : Option (Nat × List Char) :=
  match parse2Digit cs maxv with
  | some (n, '/' :: rest) => some (n, rest)
  | _ =>
      match parse1Digit cs with
      | some (n, '/' :: rest) => some (n, rest)
      | _ => none

/-- Embeds re.fullmatch of the deterministic date pattern: day 1..31, month
1..12, exactly four year digits (no calendar validation at this layer). -/
def dateRegexMatch (cs : List Char) : Bool :=
  match parseNumSlash cs 31 with
  | some (_, r1) =>
      (match parseNumSlash r1 12 with
       | some (_, r2) =>
           (match r2 with
            | a :: b :: c :: d :: [] => a.isDigit && b.isDigit && c.isDigit && d.isDigit
            | _ => false)
       | none => false)
  | none => false

/-- Embeds v5_runner.deterministic_capture.  Returns the captured flag and
the updated state; none models an uncaught exception.  The source is a
sequence of independent type-dispatched ifs; for any single field type the
chain below is equivalent (a failed branch falls through only to branches
whose type test fails, ending at return False). -/
def deterministic_capture (gcm : String → List String → List String) (state : JValue)
    (field_meta : FieldMeta) (user_text : String) : Option (Bool × JValue) :=
  match resolve_dynamic_path state field_meta.path with
  | none => none
  | some path =>
      let raw := pyStrip user_text
      let text := removeChar (removeChar (pyLower raw) ',') '$'
      if field_meta.type = "integer" ∧ pyIsDigitStr text then
        (set_by_path state path (.int (digitsVal text.toList))).map (fun st => (true, st))
      else if field_meta.type = "currency" then
        if hasRangePattern text then some (false, state)
        else if hedgeWords.any (fun w => containsSub text w) then some (false, state)
        else
          match currencyFullmatch text with
          | none => some (false, state)
          | some m =>
              (set_by_path state path (.int (currencyAmount m))).map (fun st => (true, st))
      else if field_meta.type = "enum" then
        match normalize_enum gcm text field_meta.values with
        | some v =>
            if v = "" then some (false, state)
            else (set_by_path state path (.str v)).map (fun st => (true, st))
        | none => some (false, state)
      else if field_meta.type = "string" ∧ raw ≠ "" then
        (set_by_path state path (.str raw)).map (fun st => (true, st))
      else if field_meta.type = "date" then
        if dateRegexMatch text.toList then
          (set_by_path state path (.str text)).map (fun st => (true, st))
        else some (false, state)
      else some (false, state)

/-! ## v5_runner.py: validation -/

/-- Leap year rule used by the Gregorian calendar (datetime). -/
def isLeapYear (y : Nat) : Bool :=
  y % 4 = 0 && (y % 100 ≠ 0 || y % 400 = 0)

/-- Days in a month (datetime calendar validation). -/
def daysInMonth (m y : Nat) : Nat :=
  if m = 2 then (if isLeapYear y then 29 else 28)
  else if m = 4 ∨ m = 6 ∨ m = 9 ∨ m = 11 then 30
  else 31

/-- Embeds datetime.strptime(value, d/m/Y): day and month directives accept
one or two digits in range, the year directive exactly four digits, the
whole string must be consumed, and the datetime constructor validates the
calendar date (day within the month, year at least 1).  A non-string value
raises, caught by the source except clause. -/
def pyStrptimeDMY (v : JValue) : Option (Nat × Nat × Nat) :=
  match v with
  | .str s =>
      (match parseNumSlash s.toList 31 with
       | some (d, r1) =>
           (match parseNumSlash r1 12 with
            | some (m, r2) =>
                (match r2 with
                 | a :: b :: c :: e :: [] =>
                     if a.isDigit ∧ b.isDigit ∧ c.isDigit ∧ e.isDigit then
                       let y := digitsVal [a, b, c, e]
                       if 1 ≤ y ∧ d ≤ daysInMonth m y then some (d, m, y) else none
                     else none
                 | _ => none)
            | none => none)
       | none => none)
  | _ => none

/-- Range checks of the currency branch of validate_value. -/
def currencyBounds (field_meta : FieldMeta) (n : Int) : Bool × Option String :=
  match field_meta.min with
  | some mn =>
      if n < mn then (false, some "too_small")
      else
        match field_meta.max with
        | some mx => if n > mx then (false, some "too_large") else (true, none)
        | none => (true, none)
  | none =>
      match field_meta.max with
      | some mx => if n > mx then (false, some "too_large") else (true, none)
      | none => (true, none)

/-- Embeds v5_runner.validate_value.  The current year (datetime.now().year)
is passed explicitly.  A date value that parses and passes the year bounds
falls through the currency branch (whose type test fails) to acceptance. -/
def validate_value (nowYear : Int) (field_meta : FieldMeta) (value : JValue) :
    Bool × Option String :=
  if value = .null then (false, some "missing")
  else
    match (if field_meta.type = "date" then
             match pyStrptimeDMY value with
             | none => some ((false : Bool), some "invalid_format")
             | some (_, _, y) =>
                 if (y : Int) < 1900 ∨ (y : Int) > nowYear - 18 then
                   some ((false : Bool), some "invalid_age")
                 else none
           else none) with
    | some r => r
    | none =>
        if field_meta.type = "currency" then
          match value with
          | .int n => currencyBounds field_meta n
          | .bool b => currencyBounds field_meta (if b then 1 else 0)
          | _ => (false, some "not_numeric")
        else (true, none)

/-! ## v5_runner.py: extraction-agent post-processing -/

/-- Python str.find of a character: first index, none for the sentinel -1. -/
def strFind (s : String) (c : Char) : Option Nat :=
  s.toList.findIdx? (fun d => d = c)

/-- Python str.rfind of a character: last index, none for the sentinel -1. -/
def strRFind (s : String) (c : Char) : Option Nat :=
  match s.toList.reverse.findIdx? (fun d => d = c) with
  | some j => some (s.toList.length - 1 - j)
  | none => none

/-- The slice text[start : stop+1]. -/
def sliceIncl (s : String) (start stop : Nat) : String :=
  String.mk ((s.toList.drop start).take (stop + 1 - start))

/-- Safety filter of v5_runner.extraction_agent: keep add_object proposals,
keep proposals whose path equals the target path, drop the rest.  A
non-dictionary element raises (none); the enclosing except clause of the
source turns that into an empty list. -/
def safeFilter (target : String) : List JValue → Option (List JValue)
  | [] => some []
  | p :: rest =>
      match p with
      | .obj es =>
          let keep :=
            (objGet es (.s "operation")).getD .null = .str "add_object" ∨
            (objGet es (.s "path")).getD .null = .str target
          (safeFilter target rest).map (fun r => if keep then p :: r else r)
      | _ => none

/-- Post-processing of the collaborator response text in extraction_agent:
locate the first [ and last ], parse the slice (json.loads abstracted by the
parse argument), then apply the safety filter.  Every failure path (missing
brackets, parse failure, iteration over a non-list, non-dictionary elements)
degrades to the empty proposal list through the enclosing try/except. -/
def extraction_postprocess (parse : String → Option JValue) (target : String)
    (text : String) : List JValue :=
  match strFind text '[', strRFind text ']' with
  | some start, some stop =>
      (match parse (sliceIncl text start stop) with
       | some (.arr ps) =>
           (match safeFilter target ps with
            | some l => l
            | none => [])
       | some _ => []
       | none => [])
  | _, _ => []

/-! ## v5_runner.py: turn-loop state machine steps -/

/-- Embeds the AWAITING_REPEAT_DECISION turn handler of v5_runner.run (the
block guarded by runtime.get("awaiting_repeat_for"); the caller checks the
guard).  The affirmative branch appends an empty item to the target array,
records its index in array_index, rewinds the cursor to find_section_start
(storing None when the section is not found), and pops the awaiting keys;
the negative branch pops them and advances; an unrecognized answer leaves
the state unchanged (the reprint reads repeat_prompt, raising when it is
missing).  none models an uncaught exception. -/
def repeat_decision_step (meta_fields : List FieldMeta) (state : JValue) (user : String) :
    Option JValue :=
  match ensureRuntime state with
  | none => none
  | some (rt, st0) =>
      let answer := pyStrip (pyLower user)
      if answer = "yes" ∨ answer = "y" then
        match objGet rt (.s "awaiting_repeat_for") with
        | some (.str array_path) =>
            (match (match get_by_path st0 array_path with
                    | .arr l => some l
                    | v => if isTruthy v then none else some []) with
             | none => none
             | some l =>
                 match set_by_path st0 array_path (.arr (l ++ [.obj []])) with
                 | none => none
                 | some st1 =>
                     match ensureRuntime st1 with
                     | none => none
                     | some (rt1, st1b) =>
                         match (match objGet rt1 (.s "array_index") with
                                | some (.obj idxs) => some idxs
                                | some _ => none
                                | none => some []) with
                         | none => none
                         | some idxs =>
                             match writeRuntime st1b
                                 (objSet rt1 (.s "array_index")
                                   (.obj (objSet idxs (.s array_path) (.int (l.length))))) with
                             | none => none
                             | some st2 =>
                                 let section_start : JValue :=
                                   match find_section_start meta_fields array_path with
                                   | some i => .int (i : Int)
                                   | none => .null
                                 match set_active_index st2 section_start with
                                 | none => none
                                 | some st3 =>
                                     match ensureRuntime st3 with
                                     | none => none
                                     | some (rt3, st3b) =>
                                         match objGet rt3 (.s "awaiting_repeat_for") with
                                         | none => none
                                         | some _ =>
                                             let rt4 := objRemove rt3 (.s "awaiting_repeat_for")
                                             match objGet rt4 (.s "repeat_prompt") with
                                             | none => none
                                             | some _ =>
                                                 writeRuntime st3b
                                                   (objRemove rt4 (.s "repeat_prompt")))
        | some _ => none
        | none => none
      else if answer = "no" ∨ answer = "n" then
        match objGet rt (.s "awaiting_repeat_for") with
        | none => none
        | some _ =>
            let rt1 := objRemove rt (.s "awaiting_repeat_for")
            match objGet rt1 (.s "repeat_prompt") with
            | none => none
            | some _ =>
                match writeRuntime st0 (objRemove rt1 (.s "repeat_prompt")) with
                | none => none
                | some st1 => advance_field st1
      else
        match objGet rt (.s "repeat_prompt") with
        | some _ => some st0
        | none => none

/-- Embeds the success (ok) branch of the validation step in v5_runner.run:
for each repeating section containing the captured field whose stage just
ended, store awaiting_repeat_for and repeat_prompt; then advance the cursor
and record last_field.  The continue statement of the source binds to the
inner for loop over section_map, not to the turn loop, so control always
falls through to advance_field. -/
def ok_branch_step (workflow : Workflow) (meta_fields : List FieldMeta)
    (section_map : List (String × List String)) (state : JValue) (field_meta : FieldMeta) :
    Option JValue :=
  match ensureRuntime state with
  | none => none
  | some (_, st0) =>
      match get_active_index st0 with
      | none => none
      | some (.int n, st1) =>
          (match section_map.foldlM
              (fun st (entry : String × List String) =>
                if entry.2.contains field_meta.path then
                  match is_last_field_of_section meta_fields n entry.2 with
                  | none => none
                  | some true =>
                      (match ensureRuntime st with
                       | none => none
                       | some (rt, stA) =>
                           writeRuntime stA
                             (objSet (objSet rt (.s "awaiting_repeat_for") (.str entry.1))
                               (.s "repeat_prompt")
                               (.str (workflow_stage_repeat_prompt workflow entry.1))))
                  | some false => some st
                else some st)
              st1 with
           | none => none
           | some st2 =>
               match advance_field st2 with
               | none => none
               | some st3 =>
                   match ensureRuntime st3 with
                   | none => none
                   | some (rt3, st3b) =>
                       writeRuntime st3b (objSet rt3 (.s "last_field") (.str field_meta.path)))
      | some _ => none

/-! ## Helper lemmas on dictionaries and lists -/

theorem objGet_objSet_self (es : List (JKey × JValue)) (k : JKey) (v : JValue) :
    objGet (objSet es k v) k = some v := by
  induction es with
  | nil => simp [objSet, objGet]
  | cons e rest ih =>
      obtain ⟨k1, v1⟩ := e
      by_cases h : k1 = k
      · simp [objSet, objGet, h]
      · simp [objSet, objGet, h, ih]

theorem objGet_objSet_ne (es : List (JKey × JValue)) (k k2 : JKey) (v : JValue)
    (h : k ≠ k2) : objGet (objSet es k v) k2 = objGet es k2 := by
  induction es with
  | nil => simp [objSet, objGet, h]
  | cons e rest ih =>
      obtain ⟨k1, v1⟩ := e
      by_cases h1 : k1 = k
      · subst h1
        simp [objSet, objGet, h, Ne.symm h]
      · by_cases h2 : k1 = k2
        · subst h2
          simp [objSet, objGet, h1]
        · simp [objSet, objGet, h1, h2, ih]

theorem objGet_objRemove_ne (es : List (JKey × JValue)) (k k2 : JKey)
    (h : k ≠ k2) : objGet (objRemove es k) k2 = objGet es k2 := by
  induction es with
  | nil => simp [objRemove]
  | cons e rest ih =>
      obtain ⟨k1, v1⟩ := e
      by_cases h1 : k1 = k
      · subst h1
        simp [objRemove, objGet, h]
      · by_cases h2 : k1 = k2
        · subst h2
          simp [objRemove, objGet, h1]
        · simp [objRemove, objGet, h1, h2, ih]

theorem objGet_eq_none_of_not_mem (es : List (JKey × JValue)) (k : JKey)
    (h : k ∉ es.map Prod.fst) : objGet es k = none := by
  induction es with
  | nil => simp [objGet]
  | cons e rest ih =>
      obtain ⟨k1, v1⟩ := e
      simp only [List.map_cons, List.mem_cons] at h
      push_neg at h
      have hne : ¬k1 = k := fun hc => h.1 hc.symm
      simp [objGet, hne, ih h.2]

theorem objGet_objRemove_self (es : List (JKey × JValue)) (k : JKey)
    (h : (es.map Prod.fst).Nodup) : objGet (objRemove es k) k = none := by
  induction es with
  | nil => simp [objRemove, objGet]
  | cons e rest ih =>
      obtain ⟨k1, v1⟩ := e
      simp only [List.map_cons, List.nodup_cons] at h
      by_cases h1 : k1 = k
      · subst h1
        simpa [objRemove] using objGet_eq_none_of_not_mem rest k1 h.1
      · simp [objRemove, objGet, h1, ih h.2]

theorem mem_fst_objSet (es : List (JKey × JValue)) (k k2 : JKey) (v : JValue) :
    k2 ∈ (objSet es k v).map Prod.fst ↔ k2 ∈ es.map Prod.fst ∨ k2 = k := by
  induction es with
  | nil => simp [objSet, eq_comm]
  | cons e rest ih =>
      obtain ⟨k1, v1⟩ := e
      by_cases h1 : k1 = k
      · subst h1
        simp only [objSet, if_pos, List.map_cons, List.mem_cons]
        tauto
      · simp only [objSet, if_neg h1, List.map_cons, List.mem_cons, ih]
        tauto

theorem mem_fst_objRemove (es : List (JKey × JValue)) (k k2 : JKey)
    (h : k2 ∈ (objRemove es k).map Prod.fst) : k2 ∈ es.map Prod.fst := by
  induction es with
  | nil => simp [objRemove] at h
  | cons e rest ih =>
      obtain ⟨k1, v1⟩ := e
      by_cases h1 : k1 = k
      · subst h1
        simp only [objRemove, if_pos] at h
        simp only [List.map_cons, List.mem_cons]
        exact Or.inr h
      · simp only [objRemove, if_neg h1, List.map_cons, List.mem_cons] at h ⊢
        rcases h with h | h
        · exact Or.inl h
        · exact Or.inr (ih h)

theorem nodup_objSet (es : List (JKey × JValue)) (k : JKey) (v : JValue)
    (h : (es.map Prod.fst).Nodup) : ((objSet es k v).map Prod.fst).Nodup := by
  induction es with
  | nil => simp [objSet]
  | cons e rest ih =>
      obtain ⟨k1, v1⟩ := e
      simp only [List.map_cons, List.nodup_cons] at h
      by_cases h1 : k1 = k
      · subst h1
        simp only [objSet, if_pos, List.map_cons, List.nodup_cons]
        exact h
      · simp only [objSet, if_neg h1, List.map_cons, List.nodup_cons]
        refine ⟨?_, ih h.2⟩
        intro hc
        rcases (mem_fst_objSet rest k k1 v).mp hc with hc2 | hc2
        · exact h.1 hc2
        · exact h1 hc2

theorem nodup_objRemove (es : List (JKey × JValue)) (k : JKey)
    (h : (es.map Prod.fst).Nodup) : ((objRemove es k).map Prod.fst).Nodup := by
  induction es with
  | nil => simp [objRemove]
  | cons e rest ih =>
      obtain ⟨k1, v1⟩ := e
      simp only [List.map_cons, List.nodup_cons] at h
      by_cases h1 : k1 = k
      · subst h1
        simp only [objRemove, if_pos]
        exact h.2
      · simp only [objRemove, if_neg h1, List.map_cons, List.nodup_cons]
        exact ⟨fun hc => h.1 (mem_fst_objRemove rest k k1 hc), ih h.2⟩

theorem listGet_set_self (l : List JValue) (j : Nat) (v : JValue) (h : j < l.length) :
    (l.set j v)[j]? = some v :=
  List.getElem?_set_eq_of_lt v h

theorem listPadTo_length (l : List JValue) (k : Nat) (fill : JValue) :
    (listPadTo l k fill).length = max l.length k := by
  simp [listPadTo]
  omega

/-! ## Round-trip of set_by_path and get_by_path -/

theorem setGo_str_none : ∀ (ps : List JKey) (v : JValue) (t : String),
    setGo (.str t) ps v = none
  | [], _, _ => rfl
  | [last], v, t => by cases last <;> rfl
  | p :: nxt :: rest, v, t => by
      cases p with
      | s k => rfl
      | i n =>
          simp only [setGo]
          by_cases h : 0 ≤ n ∧ ((t.length : Int)) ≤ n
          · simp [h]
          · simp only [if_neg h]
            cases hg : pyStrGet t n with
            | none => simp
            | some c => simp [setGo_str_none (nxt :: rest) v c]

theorem setGo_roundtrip : ∀ (ps : List JKey) (ref v ref' : JValue),
    setGo ref ps v = some ref' → ps.foldl getStep ref' = v
  | [], ref, v, ref' => by
      intro h
      simp [setGo] at h
  | [last], ref, v, ref' => by
      intro h
      simp only [setGo] at h
      simp only [List.foldl]
      cases ref with
      | obj es =>
          cases last with
          | s k =>
              simp only [setLast, Option.some.injEq] at h
              subst h
              simp [getStep, objGet_objSet_self]
          | i n =>
              simp only [setLast] at h
              by_cases hn : (es.length : Int) ≤ n
              · simp [hn] at h
              · simp only [if_neg hn, Option.some.injEq] at h
                subst h
                simp [getStep, objGet_objSet_self]
      | arr l =>
          cases last with
          | s k => simp [setLast] at h
          | i n =>
              simp only [setLast] at h
              by_cases hn : 0 ≤ n
              · simp only [if_pos hn, Option.some.injEq] at h
                subst h
                have hlen : n.toNat < (listPadTo l (n.toNat + 1) JValue.null).length := by
                  rw [listPadTo_length]
                  omega
                simp [getStep, pyListGet, hn, listGet_set_self _ _ _ hlen]
              · simp only [if_neg hn] at h
                by_cases hn2 : 0 ≤ (l.length : Int) + n
                · simp only [if_pos hn2, Option.some.injEq] at h
                  subst h
                  have hj : ((l.length : Int) + n).toNat < l.length := by omega
                  simp only [getStep, pyListGet, if_neg hn, List.length_set]
                  simp [hn2, listGet_set_self _ _ _ hj]
                · simp [hn2] at h
      | null => simp [setLast] at h
      | bool b => simp [setLast] at h
      | int m => simp [setLast] at h
      | str t => cases last <;> simp [setLast] at h
  | p :: nxt :: rest, ref, v, ref' => by
      intro h
      simp only [List.foldl]
      cases ref with
      | obj es =>
          cases p with
          | s k =>
              simp only [setGo] at h
              rcases Option.map_eq_some'.mp h with ⟨c2, hc2, hrefl⟩
              subst hrefl
              have hstep : getStep (.obj (objSet es (.s k) c2)) (.s k) = c2 := by
                simp [getStep, objGet_objSet_self]
              rw [hstep]
              exact setGo_roundtrip (nxt :: rest) _ v c2 hc2
          | i n =>
              simp only [setGo] at h
              by_cases hn : (es.length : Int) ≤ n
              · simp [hn] at h
              · simp only [if_neg hn] at h
                cases hg : objGet es (.i n) with
                | none => rw [hg] at h; simp at h
                | some c =>
                    rw [hg] at h
                    rcases Option.map_eq_some'.mp h with ⟨c2, hc2, hrefl⟩
                    subst hrefl
                    have hstep : getStep (.obj (objSet es (.i n) c2)) (.i n) = c2 := by
                      simp [getStep, objGet_objSet_self]
                    rw [hstep]
                    exact setGo_roundtrip (nxt :: rest) _ v c2 hc2
      | arr l =>
          cases p with
          | s k => simp [setGo] at h
          | i n =>
              simp only [setGo] at h
              by_cases hn : 0 ≤ n
              · simp only [if_pos hn] at h
                cases hg : (listPadTo l (n.toNat + 1) (.obj [])).get? n.toNat with
                | none => rw [hg] at h; simp at h
                | some c =>
                    rw [hg] at h
                    rcases Option.map_eq_some'.mp h with ⟨c2, hc2, hrefl⟩
                    subst hrefl
                    have hlen : n.toNat < (listPadTo l (n.toNat + 1) (JValue.obj [])).length := by
                      rw [listPadTo_length]
                      omega
                    have hstep :
                        getStep (.arr ((listPadTo l (n.toNat + 1) (.obj [])).set n.toNat c2)) (.i n) = c2 := by
                      simp [getStep, pyListGet, hn, listGet_set_self _ _ _ hlen]
                    rw [hstep]
                    exact setGo_roundtrip (nxt :: rest) _ v c2 hc2
              · simp only [if_neg hn] at h
                by_cases hn2 : 0 ≤ (l.length : Int) + n
                · simp only [if_pos hn2] at h
                  cases hg : l.get? ((l.length : Int) + n).toNat with
                  | none => rw [hg] at h; simp at h
                  | some c =>
                      rw [hg] at h
                      rcases Option.map_eq_some'.mp h with ⟨c2, hc2, hrefl⟩
                      subst hrefl
                      have hj : ((l.length : Int) + n).toNat < l.length := by omega
                      have hstep :
                          getStep (.arr (l.set ((l.length : Int) + n).toNat c2)) (.i n) = c2 := by
                        simp only [getStep, pyListGet, if_neg hn, List.length_set]
                        simp [hn2, listGet_set_self _ _ _ hj]
                      rw [hstep]
                      exact setGo_roundtrip (nxt :: rest) _ v c2 hc2
                · simp [hn2] at h
      | str t =>
          cases p with
          | s k => simp [setGo] at h
          | i n =>
              simp only [setGo] at h
              by_cases hc : 0 ≤ n ∧ ((t.length : Int)) ≤ n
              · simp [hc] at h
              · simp only [if_neg hc] at h
                cases hg : pyStrGet t n with
                | none => rw [hg] at h; simp at h
                | some c =>
                    rw [hg] at h
                    simp [setGo_str_none (nxt :: rest) v c] at h
      | null => simp [setGo] at h
      | bool b => simp [setGo] at h
      | int m => simp [setGo] at h

theorem set_get_roundtrip (state : JValue) (path : String) (v state2 : JValue)
    (h : set_by_path state path v = some state2) : get_by_path state2 path = v := by
  unfold set_by_path at h
  unfold get_by_path
  cases hp : parse_path path with
  | none => rw [hp] at h; simp at h
  | some ps =>
      rw [hp] at h
      exact setGo_roundtrip ps state v state2 h

/-! ## Claim C1 and C3: the patch engine -/

theorem applyPatchStep_spec (state : JValue) (patch : JValue) (out : PatchOutcome)
    (state2 : JValue) (h : applyPatchStep state patch = some (out, state2)) :
    out.status = "blocked" ∧ state2 = state := by
  unfold applyPatchStep at h
  cases patch with
  | obj es =>
      simp only at h
      split at h
      all_goals try split at h
      all_goals try split at h
      all_goals try split at h
      all_goals try simp_all
      all_goals try (obtain ⟨h1, h2⟩ := h)
      all_goals try subst h1
      all_goals try subst h2
      all_goals first
        | exact ⟨rfl, rfl⟩
        | rfl
  | null => simp at h
  | bool b => simp at h
  | int n => simp at h
  | str s => simp at h
  | arr l => simp at h

theorem apply_patches_go (patches : List JValue) :
    ∀ (rs : List PatchOutcome) (state : JValue) (res : List PatchOutcome) (state2 : JValue),
      patches.foldl
        (fun acc patch =>
          match acc with
          | none => none
          | some (results, st) =>
              match applyPatchStep st patch with
              | some (out, st2) => some (results ++ [out], st2)
              | none => none)
        (some (rs, state)) = some (res, state2) →
      state2 = state ∧ ∀ r ∈ res, r ∈ rs ∨ r.status = "blocked" := by
  induction patches with
  | nil =>
      intro rs state res state2 h
      simp only [List.foldl, Option.some.injEq, Prod.mk.injEq] at h
      refine ⟨h.2.symm, ?_⟩
      intro r hr
      exact Or.inl (h.1 ▸ hr)
  | cons p ps ih =>
      intro rs state res state2 h
      simp only [List.foldl] at h
      cases hstep : applyPatchStep state p with
      | none =>
          rw [hstep] at h
          simp only at h
          exfalso
          have : ∀ (l : List JValue),
              l.foldl (fun acc patch =>
                match acc with
                | none => none
                | some (results, st) =>
                    match applyPatchStep st patch with
                    | some (out, st2) => some (results ++ [out], st2)
                    | none => none) (none : Option (List PatchOutcome × JValue)) = none := by
            intro l
            induction l with
            | nil => rfl
            | cons q qs ih2 => simpa using ih2
          rw [this ps] at h
          cases h
      | some r2 =>
          obtain ⟨out, st2⟩ := r2
          rw [hstep] at h
          simp only at h
          obtain ⟨hb, hst⟩ := applyPatchStep_spec state p out st2 hstep
          rw [hst] at h
          obtain ⟨h1, h2⟩ := ih (rs ++ [out]) state res state2 h
          refine ⟨h1, ?_⟩
          intro r hr
          rcases h2 r hr with hm | hm
          · rcases List.mem_append.mp hm with hm2 | hm2
            · exact Or.inl hm2
            · simp only [List.mem_singleton] at hm2
              subst hm2
              exact Or.inr hb
          · exact Or.inr hm

/-- Claim C3: for every state and every patch batch, a patch whose outcome is
reported blocked causes no mutation of the state.  In this code every patch
of every batch is reported blocked, and the state after the batch (and after
every single step, the intermediate state being universally quantified)
equals the state before. -/
theorem apply_patches_blocked_no_mutation :
    (∀ (state patch : JValue) (out : PatchOutcome) (state2 : JValue),
        applyPatchStep state patch = some (out, state2) →
        out.status = "blocked" ∧ state2 = state) ∧
    (∀ (state : JValue) (patches : List JValue) (res : List PatchOutcome) (state2 : JValue),
        apply_patches state patches = some (res, state2) →
        state2 = state ∧ ∀ r ∈ res, r.status = "blocked") := by
  refine ⟨applyPatchStep_spec, ?_⟩
  intro state patches res state2 h
  unfold apply_patches at h
  obtain ⟨h1, h2⟩ := apply_patches_go patches [] state res state2 h
  refine ⟨h1, ?_⟩
  intro r hr
  rcases h2 r hr with hm | hm
  · cases hm
  · exact hm

/-- Witness for C3 at a concrete batch. -/
theorem apply_patches_blocked_no_mutation_witness :
    (JValue.obj []) = (JValue.obj []) ∧
    ∀ r ∈ [PatchOutcome.mk "blocked"
        (.obj [(.s "operation", .str "replace"), (.s "path", .str "applicant.income"),
               (.s "value", .int 5)])], r.status = "blocked" := by
  have h := apply_patches_blocked_no_mutation.2 (.obj [])
    [.obj [(.s "operation", .str "replace"), (.s "path", .str "applicant.income"),
           (.s "value", .int 5)]]
    [PatchOutcome.mk "blocked"
        (.obj [(.s "operation", .str "replace"), (.s "path", .str "applicant.income"),
               (.s "value", .int 5)])]
    (.obj []) (by rfl)
  exact h

/-- Claim C1 (evidence for the code bug): a patch with operation none is
reported blocked, not ignored, and the add/replace/append cases are equally
blocked: the blocked append and the continue are unconditional in the loop
body of apply_patches, so the ignored and success paths are unreachable. -/
theorem apply_patches_none_reported_blocked :
    apply_patches (.obj [])
      [.obj [(.s "operation", .str "none"), (.s "path", .str "applicant.name")],
       .obj [(.s "operation", .str "replace"), (.s "path", .str "applicant.name"),
             (.s "value", .str "Ada")]] =
      some ([⟨"blocked", .obj [(.s "operation", .str "none"), (.s "path", .str "applicant.name")]⟩,
             ⟨"blocked", .obj [(.s "operation", .str "replace"), (.s "path", .str "applicant.name"),
                               (.s "value", .str "Ada")]⟩],
            .obj []) := by
  rfl

/-! ## Claim C5: path addressor round-trip -/

/-- Claim C5 counterexample: the path a[0] is syntactically valid and the
document maps a to an empty dictionary, yet set_by_path raises (Python
AttributeError: the while len(ref) <= last loop calls append on a dict), so
set is not total over every document shape. -/
theorem set_by_path_not_total_cex :
    parse_path "a[0]" = some [JKey.s "a", JKey.i 0] ∧
    set_by_path (.obj [(.s "a", .obj [])]) "a[0]" (.int 1) = none := by
  constructor <;> rfl

/-- Claim C5 as amended: for every document, syntactically valid path and
value on which set_by_path succeeds (it is not total), get_by_path
afterwards returns exactly the stored value. -/
theorem set_get_roundtrip_on_success (state : JValue) (path : String) (v state2 : JValue)
    (h : set_by_path state path v = some state2) : get_by_path state2 path = v :=
  set_get_roundtrip state path v state2 h

/-- Witness for the amended C5 at a concrete document and path. -/
theorem set_get_roundtrip_on_success_witness :
    get_by_path (.obj [(.s "x", .obj [(.s "y", .str "v")])]) "x.y" = .str "v" :=
  set_get_roundtrip_on_success (.obj []) "x.y" (.str "v")
    (.obj [(.s "x", .obj [(.s "y", .str "v")])]) (by rfl)

/-! ## Claim C7: integer capture -/

/-- Claim C7 counterexample: for an integer field the raw text 1,000 is not a
digit sequence after trimming, yet deterministic capture accepts it and
commits 1000, because commas and dollar signs are stripped before the
isdigit test. -/
theorem integer_capture_comma_cex :
    deterministic_capture (fun _ _ => []) (.obj [])
        ⟨"dependents", "integer", "", [], none, none⟩ "1,000" =
      some (true, .obj [(.s "dependents", .int 1000)]) ∧
    pyIsDigitStr (pyStrip "1,000") = false := by
  constructor <;> rfl

/-- Claim C7 as amended: for an integer field, deterministic capture accepts
a raw text exactly when the text is a nonempty digit sequence after
trimming, lowercasing and removing every comma and dollar sign; on accept it
commits that digit sequence read as a decimal integer, on reject it leaves
the state unchanged. -/
theorem integer_capture_iff (gcm : String → List String → List String)
    (state : JValue) (f : FieldMeta) (t : String) (path : String)
    (hf : f.type = "integer")
    (hres : resolve_dynamic_path state f.path = some path) :
    (pyIsDigitStr (removeChar (removeChar (pyLower (pyStrip t)) ',') '$') = false →
        deterministic_capture gcm state f t = some (false, state)) ∧
    (pyIsDigitStr (removeChar (removeChar (pyLower (pyStrip t)) ',') '$') = true →
        deterministic_capture gcm state f t =
          (set_by_path state path
              (.int (digitsVal (removeChar (removeChar (pyLower (pyStrip t)) ',') '$').toList))).map
            (fun st => (true, st))) := by
  constructor
  · intro hd
    unfold deterministic_capture
    rw [hres, hf]
    simp [hd]
  · intro hd
    unfold deterministic_capture
    rw [hres, hf]
    simp [hd]

/-- Witness for the amended C7. -/
theorem integer_capture_iff_witness :
    deterministic_capture (fun _ _ => []) (.obj [])
        ⟨"dependents", "integer", "", [], none, none⟩ " 42 " =
      some (true, .obj [(.s "dependents", .int 42)]) := by
  have h := (integer_capture_iff (fun _ _ => []) (.obj [])
    ⟨"dependents", "integer", "", [], none, none⟩ " 42 " "dependents" rfl (by rfl)).2 (by rfl)
  rw [h]
  rfl

/-! ## Claim C2: the repeat-section transition in the turn loop -/

/-- Schema objects for the C2 evaluation: one repeating stage whose single
field is the last field of its section. -/
def c2field : FieldMeta := ⟨"income_sources[0].amount", "currency", "", [], none, none⟩

/-- Workflow for the C2 evaluation. -/
def c2wf : Workflow := ⟨[⟨[c2field], some ⟨"income_sources", "Add another?"⟩⟩]⟩

/-- State before the C2 step: cursor at 0, the single section field just
captured and validated. -/
def c2state : JValue := .obj [(.s "workflow_runtime", .obj [(.s "active_index", .int 0)])]

/-- Claim C2 (evidence for the code bug): after the success branch for the
last field of the repeating stage, awaiting_repeat_for and the repeat prompt
are set, but active_index has moved from 0 to 1.  The continue statement in
the source binds to the inner for loop over section_map, so control falls
through to advance_field; the claim (and the spec) say the cursor must not
advance while the repeat question is pending. -/
theorem ok_branch_advances_cursor_despite_repeat :
    ok_branch_step c2wf [c2field] [("income_sources", ["income_sources[0].amount"])]
        c2state c2field =
      some (.obj [(.s "workflow_runtime", .obj
        [(.s "active_index", .int 1),
         (.s "awaiting_repeat_for", .str "income_sources"),
         (.s "repeat_prompt", .str "Add another?"),
         (.s "last_field", .str "income_sources[0].amount")])]) ∧
    get_by_path c2state "workflow_runtime.active_index" = .int 0 := by
  constructor <;> rfl

/-! ## Claim C8: date validation -/

/-- Claim C8: for a date field and a present (non-null) value, validation
rejects with invalid_format exactly when the value does not parse as a
d/m/Y calendar date, rejects with invalid_age exactly when it parses but the
year predates 1900 or the age in calendar years (current year minus birth
year, the computation the source performs on datetime.now().year) is under
18, and accepts every other value.  The caller invokes validation only after
field_filled, so the null case (reported missing) is outside the claim. -/
theorem validate_date_spec (nowYear : Int) (f : FieldMeta) (v : JValue)
    (hf : f.type = "date") (hv : v ≠ .null) :
    (validate_value nowYear f v = (false, some "invalid_format") ↔ pyStrptimeDMY v = none) ∧
    (validate_value nowYear f v = (false, some "invalid_age") ↔
      ∃ d m y, pyStrptimeDMY v = some (d, m, y) ∧
        ((y : Int) < 1900 ∨ (y : Int) > nowYear - 18)) ∧
    (∀ d m y, pyStrptimeDMY v = some (d, m, y) →
      ¬((y : Int) < 1900 ∨ (y : Int) > nowYear - 18) →
      validate_value nowYear f v = (true, none)) := by
  unfold validate_value
  rw [if_neg hv, hf]
  simp only [reduceIte]
  cases hp : pyStrptimeDMY v with
  | none =>
      refine ⟨by simp, by simp, ?_⟩
      intro d m y hdm
      simp at hdm
  | some r =>
      obtain ⟨d, ⟨m, y⟩⟩ := r
      by_cases hb : (y : Int) < 1900 ∨ (y : Int) > nowYear - 18
      · simp only [if_pos hb]
        refine ⟨by simp, ?_, ?_⟩
        · constructor
          · intro _
            exact ⟨d, m, y, rfl, hb⟩
          · intro _
            trivial
        · intro d2 m2 y2 hdm hnb
          cases hdm
          exact absurd hb hnb
      · simp only [if_neg hb]
        refine ⟨by simp, ?_, ?_⟩
        · constructor
          · intro hc
            simp at hc
          · intro hc
            obtain ⟨d2, m2, y2, hdm, hb2⟩ := hc
            cases hdm
            exact absurd hb2 hb
        · intro d2 m2 y2 hdm hnb
          rfl

/-- Witness for C8: a valid adult birth date is accepted, an under-18 date is
rejected invalid_age, an unparseable value is rejected invalid_format. -/
theorem validate_date_spec_witness :
    validate_value 2026 ⟨"dob", "date", "", [], none, none⟩ (.str "05/03/1990") = (true, none) ∧
    validate_value 2026 ⟨"dob", "date", "", [], none, none⟩ (.str "05/03/2012") =
      (false, some "invalid_age") ∧
    validate_value 2026 ⟨"dob", "date", "", [], none, none⟩ (.str "1990-03-05") =
      (false, some "invalid_format") := by
  refine ⟨?_, ?_, ?_⟩
  · exact (validate_date_spec 2026 ⟨"dob", "date", "", [], none, none⟩ (.str "05/03/1990")
      rfl (by simp)).2.2 5 3 1990 (by rfl) (by decide)
  · exact ((validate_date_spec 2026 ⟨"dob", "date", "", [], none, none⟩ (.str "05/03/2012")
      rfl (by simp)).2.1).mpr ⟨5, 3, 2012, by rfl, by decide⟩
  · exact ((validate_date_spec 2026 ⟨"dob", "date", "", [], none, none⟩ (.str "1990-03-05")
      rfl (by simp)).1).mpr (by rfl)

/-! ## Claim C6: currency capture -/

theorem isPref_append_left : ∀ (a b l : List Char), isPref (a ++ b) l = true → isPref a l = true
  | [], _, _, _ => rfl
  | x :: xs, b, [], h => by simp [isPref] at h
  | x :: xs, b, y :: ys, h => by
      simp only [List.cons_append, isPref, Bool.and_eq_true] at h ⊢
      exact ⟨h.1, isPref_append_left xs b ys h.2⟩

theorem containsSub_roughly_rough (t : String) (h : containsSub t "roughly" = true) :
    containsSub t "rough" = true := by
  unfold containsSub at h ⊢
  rw [List.any_eq_true] at h ⊢
  obtain ⟨tail, htail, hp⟩ := h
  exact ⟨tail, htail, isPref_append_left "rough".toList ['l', 'y'] tail hp⟩

/-- Claim C6: for a currency field, deterministic capture is a no-match that
leaves the state unchanged on any text whose preprocessed form (stripped,
lowercased, commas and dollar signs removed) contains a numeric range
pattern or one of the hedging qualifiers, and on a text that passes both
rejections and matches the currency pattern it commits the integer amount
(number, optional decimal part, optional k multiplier) at the resolved
path.  The source hedging list carries rough, which covers roughly. -/
theorem currency_capture_spec (gcm : String → List String → List String)
    (state : JValue) (f : FieldMeta) (t : String) (path : String) (text : String)
    (hf : f.type = "currency")
    (hres : resolve_dynamic_path state f.path = some path)
    (htext : text = removeChar (removeChar (pyLower (pyStrip t)) ',') '$') :
    ((hasRangePattern text = true ∨
      ∃ w ∈ ["about", "around", "roughly", "approx", "maybe", "depends"],
        containsSub text w = true) →
      deterministic_capture gcm state f t = some (false, state)) ∧
    (∀ m : CurrencyMatch, hasRangePattern text = false →
      hedgeWords.any (fun w => containsSub text w) = false →
      currencyFullmatch text = some m →
      deterministic_capture gcm state f t =
        (set_by_path state path (.int (currencyAmount m))).map (fun st => (true, st))) := by
  subst htext
  constructor
  · intro hdisj
    unfold deterministic_capture
    rw [hres, hf]
    simp only [reduceIte]
    by_cases hr : hasRangePattern (removeChar (removeChar (pyLower (pyStrip t)) ',') '$') = true
    · simp [hr]
    · rcases hdisj with hd | ⟨w, hw, hc⟩
      · exact absurd hd hr
      · have hhedge : hedgeWords.any
            (fun w => containsSub (removeChar (removeChar (pyLower (pyStrip t)) ',') '$') w) = true := by
          rw [List.any_eq_true]
          simp only [List.mem_cons, List.not_mem_nil, or_false] at hw
          rcases hw with h1 | h1 | h1 | h1 | h1 | h1 <;> subst h1
          · exact ⟨"about", by simp [hedgeWords], hc⟩
          · exact ⟨"around", by simp [hedgeWords], hc⟩
          · exact ⟨"rough", by simp [hedgeWords], containsSub_roughly_rough _ hc⟩
          · exact ⟨"approx", by simp [hedgeWords], hc⟩
          · exact ⟨"maybe", by simp [hedgeWords], hc⟩
          · exact ⟨"depends", by simp [hedgeWords], hc⟩
        simp only [Bool.not_eq_true] at hr
        simp [hr, hhedge]
  · intro m h1 h2 h3
    unfold deterministic_capture
    rw [hres, hf]
    simp only [reduceIte]
    simp [h1, h2, h3]

/-- Witness for C6: the range text and the hedging text of the claim are
no-match, and 2k commits 2000. -/
theorem currency_capture_spec_witness :
    deterministic_capture (fun _ _ => []) (.obj [])
        ⟨"income", "currency", "", [], none, none⟩ "70-80k" = some (false, .obj []) ∧
    deterministic_capture (fun _ _ => []) (.obj [])
        ⟨"income", "currency", "", [], none, none⟩ "about 5000" = some (false, .obj []) ∧
    deterministic_capture (fun _ _ => []) (.obj [])
        ⟨"income", "currency", "", [], none, none⟩ "2k" =
      some (true, .obj [(.s "income", .int 2000)]) := by
  refine ⟨?_, ?_, ?_⟩
  · exact (currency_capture_spec (fun _ _ => []) (.obj [])
      ⟨"income", "currency", "", [], none, none⟩ "70-80k" "income" "70-80k"
      rfl (by rfl) (by rfl)).1 (Or.inl (by rfl))
  · exact (currency_capture_spec (fun _ _ => []) (.obj [])
      ⟨"income", "currency", "", [], none, none⟩ "about 5000" "income" "about 5000"
      rfl (by rfl) (by rfl)).1 (Or.inr ⟨"about", by simp, by rfl⟩)
  · have h := (currency_capture_spec (fun _ _ => []) (.obj [])
      ⟨"income", "currency", "", [], none, none⟩ "2k" "income" "2k"
      rfl (by rfl) (by rfl)).2 ⟨['2'], [], true⟩ (by rfl) (by rfl) (by rfl)
    have hamt : currencyAmount ⟨['2'], [], true⟩ = 2000 := by
      have h2 : digitsVal ['2'] = 2 := rfl
      have h0 : digitsVal ([] : List Char) = 0 := rfl
      norm_num [currencyAmount, h2, h0]
    rw [hamt] at h
    rw [h]
    rfl

/-! ## Claim C9: extraction-agent post-processing -/

theorem safeFilter_mem (target : String) :
    ∀ (ps l : List JValue), safeFilter target ps = some l → ∀ p ∈ l,
      ∃ es, p = .obj es ∧
        ((objGet es (.s "operation")).getD .null = .str "add_object" ∨
         (objGet es (.s "path")).getD .null = .str target)
  | [], l, h, p, hp => by
      simp only [safeFilter, Option.some.injEq] at h
      subst h
      cases hp
  | q :: rest, l, h, p, hp => by
      cases q with
      | obj es =>
          simp only [safeFilter] at h
          rcases Option.map_eq_some'.mp h with ⟨r, hr, hl⟩
          subst hl
          by_cases hkeep : (objGet es (.s "operation")).getD .null = JValue.str "add_object" ∨
              (objGet es (.s "path")).getD .null = JValue.str target
          · rw [if_pos hkeep] at hp
            rcases List.mem_cons.mp hp with hp2 | hp2
            · exact ⟨es, hp2, hkeep⟩
            · exact safeFilter_mem target rest r hr p hp2
          · rw [if_neg hkeep] at hp
            exact safeFilter_mem target rest r hr p hp
      | null => simp [safeFilter] at h
      | bool b => simp [safeFilter] at h
      | int n => simp [safeFilter] at h
      | str s => simp [safeFilter] at h
      | arr l2 => simp [safeFilter] at h

/-- Claim C9: the extraction-agent post-processing is total over arbitrary
response text for every parse function (the Lean embedding returns a plain
list, every exception path of the source being mapped to the empty list):
bracket-free text and unparseable slices yield no proposals, and every
returned proposal either carries operation add_object or is addressed
exactly to the target path. -/
theorem extraction_postprocess_safe :
    (∀ (parse : String → Option JValue) (target text : String),
      strFind text '[' = none ∨ strRFind text ']' = none →
      extraction_postprocess parse target text = []) ∧
    (∀ (parse : String → Option JValue) (target text : String) (start stop : Nat),
      strFind text '[' = some start → strRFind text ']' = some stop →
      parse (sliceIncl text start stop) = none →
      extraction_postprocess parse target text = []) ∧
    (∀ (parse : String → Option JValue) (target text : String) (p : JValue),
      p ∈ extraction_postprocess parse target text →
      ∃ es, p = .obj es ∧
        ((objGet es (.s "operation")).getD .null = .str "add_object" ∨
         (objGet es (.s "path")).getD .null = .str target)) := by
  refine ⟨?_, ?_, ?_⟩
  · intro parse target text h
    unfold extraction_postprocess
    rcases h with h | h
    · rw [h]
    · rw [h]
      cases strFind text '[' <;> rfl
  · intro parse target text start stop h1 h2 h3
    unfold extraction_postprocess
    rw [h1, h2]
    simp [h3]
  · intro parse target text p hp
    unfold extraction_postprocess at hp
    cases h1 : strFind text '[' with
    | none => rw [h1] at hp; cases hp
    | some start =>
        rw [h1] at hp
        cases h2 : strRFind text ']' with
        | none => rw [h2] at hp; cases hp
        | some stop =>
            rw [h2] at hp
            simp only at hp
            cases h3 : parse (sliceIncl text start stop) with
            | none => rw [h3] at hp; cases hp
            | some j =>
                rw [h3] at hp
                cases j with
                | arr ps =>
                    simp only at hp
                    cases h4 : safeFilter target ps with
                    | none => rw [h4] at hp; cases hp
                    | some l =>
                        rw [h4] at hp
                        exact safeFilter_mem target ps l h4 p hp
                | null => cases hp
                | bool b => cases hp
                | int n => cases hp
                | str s => cases hp
                | obj es => cases hp

/-- Witness for C9: a bracket-free response and an unparseable slice yield no
proposals; from a parsed batch containing a foreign-path proposal and an
add_object proposal, every kept proposal satisfies the filter property. -/
theorem extraction_postprocess_safe_witness :
    extraction_postprocess (fun _ => some (.arr [])) "p" "no brackets here" = [] ∧
    extraction_postprocess (fun _ => none) "p" "[1]" = [] ∧
    (∃ es, (JValue.obj [(.s "operation", .str "add_object"), (.s "target_array", .str "x")]) = .obj es ∧
      ((objGet es (.s "operation")).getD .null = .str "add_object" ∨
       (objGet es (.s "path")).getD .null = .str "inc[1].amount")) := by
  refine ⟨?_, ?_, ?_⟩
  · exact extraction_postprocess_safe.1 (fun _ => some (.arr [])) "p" "no brackets here"
      (Or.inl (by rfl))
  · exact extraction_postprocess_safe.2.1 (fun _ => none) "p" "[1]" 0 2 (by rfl) (by rfl) (by rfl)
  · exact extraction_postprocess_safe.2.2
      (fun _ => some (.arr
        [.obj [(.s "operation", .str "replace"), (.s "path", .str "other.path")],
         .obj [(.s "operation", .str "add_object"), (.s "target_array", .str "x")]]))
      "inc[1].amount" "[x]"
      (.obj [(.s "operation", .str "add_object"), (.s "target_array", .str "x")])
      (by rw [show extraction_postprocess
          (fun _ => some (.arr
            [.obj [(.s "operation", .str "replace"), (.s "path", .str "other.path")],
             .obj [(.s "operation", .str "add_object"), (.s "target_array", .str "x")]]))
          "inc[1].amount" "[x]" =
          [.obj [(.s "operation", .str "add_object"), (.s "target_array", .str "x")]] from rfl]
          exact List.mem_singleton.mpr rfl)

/-! ## Claim C10: enum normalization invariant -/

theorem normalize_enum_mem (gcm : String → List String → List String)
    (value : String) (allowed : List String) (v : String)
    (h : normalize_enum gcm value allowed = some v) : v ∈ allowed := by
  unfold normalize_enum at h
  simp only at h
  cases h1 : allowed.find? (fun w => keepLetters (pyStrip (pyLower value)) = underscoresToSpaces w) with
  | some w =>
      rw [h1] at h
      cases h
      exact List.mem_of_find?_eq_some h1
  | none =>
      rw [h1] at h
      cases h2 : gcm (keepLetters (pyStrip (pyLower value))) (allowed.map underscoresToSpaces) with
      | nil => rw [h2] at h; cases h
      | cons matched rest =>
          rw [h2] at h
          simp only at h
          cases h3 : allowed.find? (fun w => matched = underscoresToSpaces w) with
          | none => rw [h3] at h; cases h
          | some w =>
              rw [h3] at h
              cases h
              exact List.mem_of_find?_eq_some h3

/-- Claim C10: normalize_enum returns nothing or an element of the allowed
list spelled exactly as in the schema, for every behaviour of the fuzzy
matcher; consequently an enum value committed by deterministic capture is a
member of the declared value list of the field. -/
theorem normalize_enum_membership :
    (∀ (gcm : String → List String → List String) (value : String) (allowed : List String),
      normalize_enum gcm value allowed = none ∨
      ∃ v ∈ allowed, normalize_enum gcm value allowed = some v) ∧
    (∀ (gcm : String → List String → List String) (state : JValue) (f : FieldMeta)
        (t : String) (state2 : JValue),
      f.type = "enum" →
      deterministic_capture gcm state f t = some (true, state2) →
      ∃ v ∈ f.values, ∃ path, resolve_dynamic_path state f.path = some path ∧
        set_by_path state path (.str v) = some state2) := by
  constructor
  · intro gcm value allowed
    cases h : normalize_enum gcm value allowed with
    | none => exact Or.inl rfl
    | some v => exact Or.inr ⟨v, normalize_enum_mem gcm value allowed v h, rfl⟩
  · intro gcm state f t state2 hf h
    unfold deterministic_capture at h
    cases hres : resolve_dynamic_path state f.path with
    | none => rw [hres] at h; cases h
    | some path =>
        rw [hres, hf] at h
        simp only [show ("enum" = "integer") = False from by simp, false_and,
          show ("enum" = "currency") = False from by simp, if_false,
          Bool.false_eq_true] at h
        cases hn : normalize_enum gcm
            (removeChar (removeChar (pyLower (pyStrip t)) ',') '$') f.values with
        | none =>
            rw [hn] at h
            simp at h
        | some v =>
            rw [hn] at h
            simp only at h
            by_cases hv : v = ""
            · rw [if_pos hv] at h
              simp at h
            · rw [if_neg hv] at h
              rcases Option.map_eq_some'.mp h with ⟨st, hst, hpair⟩
              cases hpair
              exact ⟨v, normalize_enum_mem _ _ _ _ hn, path, rfl, hst⟩

/-- Witness for C10 at a concrete enum capture. -/
theorem normalize_enum_membership_witness :
    ∃ v ∈ ["home_purchase", "refinance"], ∃ path,
      resolve_dynamic_path (.obj []) "purpose" = some path ∧
      set_by_path (.obj []) path (.str v) =
        some (.obj [(.s "purpose", .str "home_purchase")]) := by
  exact normalize_enum_membership.2 (fun _ _ => []) (.obj [])
    ⟨"purpose", "enum", "", ["home_purchase", "refinance"], none, none⟩ "Home purchase!"
    (.obj [(.s "purpose", .str "home_purchase")]) rfl (by rfl)

/-! ## Claim C4: the affirmative repeat transition -/

theorem setGo_obj_first (es : List (JKey × JValue)) (k : String) (rest : List JKey)
    (v st2 : JValue) (h : setGo (.obj es) (JKey.s k :: rest) v = some st2) :
    ∃ c, st2 = .obj (objSet es (.s k) c) := by
  cases rest with
  | nil =>
      simp only [setGo, setLast, Option.some.injEq] at h
      exact ⟨v, h.symm⟩
  | cons nxt rest2 =>
      simp only [setGo] at h
      rcases Option.map_eq_some'.mp h with ⟨c2, _, hr⟩
      exact ⟨c2, hr.symm⟩

theorem get_first_step (es : List (JKey × JValue)) (k : String) (restp : List JKey) :
    (JKey.s k :: restp).foldl getStep (.obj es) =
      restp.foldl getStep ((objGet es (.s k)).getD .null) := rfl

/-- Claim C4: from the awaiting-repeat state, an affirmative answer appends
exactly one empty item to the target array (its length grows from the length
of l to that plus one), records the new index (the old length) in
array_index, rewinds the cursor to the first field of the stage found by
find_section_start, and clears awaiting_repeat_for and repeat_prompt.  The
hypotheses state the shape Python guarantees at this point: the state is a
dictionary whose workflow_runtime dictionary (unique keys, as every Python
dictionary) holds a truthy awaiting_repeat_for string and a repeat_prompt;
the target path starts with a document key other than workflow_runtime (the
write would otherwise detach the runtime alias); the value at the target is
a list or absent; array_index is absent or a dictionary; the write succeeds
and the section exists. -/
theorem repeat_yes_appends_and_rewinds
    (meta_fields : List FieldMeta) (es : List (JKey × JValue)) (user : String)
    (rt : List (JKey × JValue)) (ap : String) (pv : JValue) (k : String)
    (restp : List JKey) (l : List JValue) (st1 : JValue)
    (idxs : List (JKey × JValue)) (i : Nat)
    (hrt : objGet es (.s "workflow_runtime") = some (.obj rt))
    (hnd : (rt.map Prod.fst).Nodup)
    (haw : objGet rt (.s "awaiting_repeat_for") = some (.str ap))
    (hawt : ap ≠ "")
    (hpr : objGet rt (.s "repeat_prompt") = some pv)
    (hans : pyStrip (pyLower user) = "yes" ∨ pyStrip (pyLower user) = "y")
    (hparse : parse_path ap = some (JKey.s k :: restp))
    (hk : k ≠ "workflow_runtime")
    (harr : get_by_path (.obj es) ap = .arr l ∨
      (get_by_path (.obj es) ap = .null ∧ l = []))
    (hset : set_by_path (.obj es) ap (.arr (l ++ [.obj []])) = some st1)
    (hidx : objGet rt (.s "array_index") = none ∧ idxs = [] ∨
      objGet rt (.s "array_index") = some (.obj idxs))
    (hfs : find_section_start meta_fields ap = some i) :
    ∃ esf rtf am,
      repeat_decision_step meta_fields (.obj es) user = some (.obj esf) ∧
      objGet esf (.s "workflow_runtime") = some (.obj rtf) ∧
      objGet rtf (.s "active_index") = some (.int i) ∧
      objGet rtf (.s "array_index") = some (.obj am) ∧
      objGet am (.s ap) = some (.int l.length) ∧
      objGet rtf (.s "awaiting_repeat_for") = none ∧
      objGet rtf (.s "repeat_prompt") = none ∧
      get_by_path (.obj esf) ap = .arr (l ++ [.obj []]) := by
  -- shape of the document after the target write
  have hset2 : setGo (.obj es) (JKey.s k :: restp) (.arr (l ++ [.obj []])) = some st1 := by
    unfold set_by_path at hset
    rw [hparse] at hset
    exact hset
  obtain ⟨c, hc⟩ := setGo_obj_first es k restp _ st1 hset2
  have hkne : (JKey.s k) ≠ (JKey.s "workflow_runtime") := by
    intro hcon
    cases hcon
    exact hk rfl
  have hne_ai_aw : (JKey.s "array_index") ≠ (JKey.s "awaiting_repeat_for") := by decide
  have hne_ac_aw : (JKey.s "active_index") ≠ (JKey.s "awaiting_repeat_for") := by decide
  have hne_ai_rp : (JKey.s "array_index") ≠ (JKey.s "repeat_prompt") := by decide
  have hne_ac_rp : (JKey.s "active_index") ≠ (JKey.s "repeat_prompt") := by decide
  have hne_aw_rp : (JKey.s "awaiting_repeat_for") ≠ (JKey.s "repeat_prompt") := by decide
  have hne_ai_ac : (JKey.s "array_index") ≠ (JKey.s "active_index") := by decide
  -- runtime lookup in the document after the write
  have hrt_es1 : objGet (objSet es (.s k) c) (.s "workflow_runtime") = some (.obj rt) := by
    rw [objGet_objSet_ne es _ _ c hkne]
    exact hrt
  have hawrt3 : objGet (objSet (objSet rt (.s "array_index")
        (.obj (objSet idxs (.s ap) (.int l.length)))) (.s "active_index") (.int i))
        (.s "awaiting_repeat_for") = some (.str ap) := by
    rw [objGet_objSet_ne _ _ _ _ hne_ac_aw, objGet_objSet_ne _ _ _ _ hne_ai_aw]
    exact haw
  have hprrt4 : objGet (objRemove (objSet (objSet rt (.s "array_index")
        (.obj (objSet idxs (.s ap) (.int l.length)))) (.s "active_index") (.int i))
        (.s "awaiting_repeat_for")) (.s "repeat_prompt") = some pv := by
    rw [objGet_objRemove_ne _ _ _ hne_aw_rp, objGet_objSet_ne _ _ _ _ hne_ac_rp,
      objGet_objSet_ne _ _ _ _ hne_ai_rp]
    exact hpr
  have harrval : (match get_by_path (.obj es) ap with
      | JValue.arr l2 => some l2
      | v => if isTruthy v = true then none else some []) = some l := by
    rcases harr with h1 | ⟨h1, h2⟩
    · rw [h1]
    · rw [h1, h2]
      rfl
  have hidxval : (match objGet rt (.s "array_index") with
      | some (.obj m) => some m
      | some _ => none
      | none => some ([] : List (JKey × JValue))) = some idxs := by
    rcases hidx with ⟨h1, h2⟩ | h1
    · rw [h1, h2]
    · rw [h1]
  -- nodup bookkeeping
  have hnd3 : ((objSet (objSet rt (.s "array_index")
      (.obj (objSet idxs (.s ap) (.int l.length)))) (.s "active_index")
      (.int i)).map Prod.fst).Nodup :=
    nodup_objSet _ _ _ (nodup_objSet _ _ _ hnd)
  have hnd4 : ((objRemove (objSet (objSet rt (.s "array_index")
      (.obj (objSet idxs (.s ap) (.int l.length)))) (.s "active_index") (.int i))
      (.s "awaiting_repeat_for")).map Prod.fst).Nodup :=
    nodup_objRemove _ _ hnd3
  -- the main evaluation
  have hmain : repeat_decision_step meta_fields (.obj es) user =
      some (.obj (objSet (objSet (objSet (objSet es (.s k) c) (.s "workflow_runtime")
        (.obj (objSet rt (.s "array_index") (.obj (objSet idxs (.s ap) (.int l.length))))))
        (.s "workflow_runtime")
        (.obj (objSet (objSet rt (.s "array_index") (.obj (objSet idxs (.s ap) (.int l.length))))
          (.s "active_index") (.int i))))
        (.s "workflow_runtime")
        (.obj (objRemove (objRemove (objSet (objSet rt (.s "array_index")
            (.obj (objSet idxs (.s ap) (.int l.length)))) (.s "active_index") (.int i))
          (.s "awaiting_repeat_for")) (.s "repeat_prompt"))))) := by
    unfold repeat_decision_step
    simp only [ensureRuntime, hrt]
    rw [if_pos hans, haw]
    simp only [harrval, hset, hc, hidxval, writeRuntime, set_active_index, ensureRuntime,
      hfs, hrt_es1, objGet_objSet_self, hawrt3, hprrt4]
  refine ⟨_, _, objSet idxs (.s ap) (.int l.length), hmain,
    objGet_objSet_self _ (.s "workflow_runtime") _, ?_, ?_,
    objGet_objSet_self idxs (.s ap) (.int l.length), ?_, ?_, ?_⟩
  · rw [objGet_objRemove_ne _ _ _ (Ne.symm hne_ac_rp),
      objGet_objRemove_ne _ _ _ (Ne.symm hne_ac_aw)]
    exact objGet_objSet_self _ (.s "active_index") _
  · rw [objGet_objRemove_ne _ _ _ (Ne.symm hne_ai_rp),
      objGet_objRemove_ne _ _ _ (Ne.symm hne_ai_aw),
      objGet_objSet_ne _ _ _ _ (Ne.symm hne_ai_ac)]
    exact objGet_objSet_self rt (.s "array_index") _
  · rw [objGet_objRemove_ne _ _ _ (Ne.symm hne_aw_rp)]
    exact objGet_objRemove_self _ (.s "awaiting_repeat_for") hnd3
  · exact objGet_objRemove_self _ (.s "repeat_prompt") hnd4
  · -- round trip through the runtime rewrites
    have hroundtrip : get_by_path st1 ap = .arr (l ++ [.obj []]) :=
      set_get_roundtrip (.obj es) ap (.arr (l ++ [.obj []])) st1 hset
    rw [hc] at hroundtrip
    unfold get_by_path at hroundtrip ⊢
    rw [hparse] at hroundtrip ⊢
    simp only [] at hroundtrip ⊢
    rw [get_first_step] at hroundtrip ⊢
    have hlook : objGet (objSet (objSet (objSet (objSet es (.s k) c) (.s "workflow_runtime")
        (.obj (objSet rt (.s "array_index") (.obj (objSet idxs (.s ap) (.int l.length))))))
        (.s "workflow_runtime")
        (.obj (objSet (objSet rt (.s "array_index") (.obj (objSet idxs (.s ap) (.int l.length))))
          (.s "active_index") (.int i))))
        (.s "workflow_runtime")
        (.obj (objRemove (objRemove (objSet (objSet rt (.s "array_index")
            (.obj (objSet idxs (.s ap) (.int l.length)))) (.s "active_index") (.int i))
          (.s "awaiting_repeat_for")) (.s "repeat_prompt"))))
        (.s k) = objGet (objSet es (.s k) c) (.s k) := by
      rw [objGet_objSet_ne _ _ _ _ (Ne.symm hkne),
        objGet_objSet_ne _ _ _ _ (Ne.symm hkne),
        objGet_objSet_ne _ _ _ _ (Ne.symm hkne)]
    rw [hlook]
    exact hroundtrip

/-- Witness for C4 at a concrete awaiting-repeat state: the one-item income
array grows to two items, the new index 1 is recorded, the cursor rewinds to
field 1 (the first field of the repeating stage), and the awaiting keys are
cleared. -/
theorem repeat_yes_appends_and_rewinds_witness :
    ∃ esf rtf am,
      repeat_decision_step
        [⟨"dependents", "integer", "", [], none, none⟩,
         ⟨"income_sources[0].amount", "currency", "", [], none, none⟩]
        (.obj [(.s "income_sources", .arr [.obj [(.s "amount", .int 3000)]]),
               (.s "workflow_runtime", .obj
                 [(.s "active_index", .int 2),
                  (.s "awaiting_repeat_for", .str "income_sources"),
                  (.s "repeat_prompt", .str "Another?")])])
        "Yes " = some (.obj esf) ∧
      objGet esf (.s "workflow_runtime") = some (.obj rtf) ∧
      objGet rtf (.s "active_index") = some (.int 1) ∧
      objGet rtf (.s "array_index") = some (.obj am) ∧
      objGet am (.s "income_sources") = some (.int 1) ∧
      objGet rtf (.s "awaiting_repeat_for") = none ∧
      objGet rtf (.s "repeat_prompt") = none ∧
      get_by_path (.obj esf) "income_sources" =
        .arr [.obj [(.s "amount", .int 3000)], .obj []] := by
  exact repeat_yes_appends_and_rewinds
    [⟨"dependents", "integer", "", [], none, none⟩,
     ⟨"income_sources[0].amount", "currency", "", [], none, none⟩]
    [(.s "income_sources", .arr [.obj [(.s "amount", .int 3000)]]),
     (.s "workflow_runtime", .obj
       [(.s "active_index", .int 2),
        (.s "awaiting_repeat_for", .str "income_sources"),
        (.s "repeat_prompt", .str "Another?")])]
    "Yes "
    [(.s "active_index", .int 2),
     (.s "awaiting_repeat_for", .str "income_sources"),
     (.s "repeat_prompt", .str "Another?")]
    "income_sources" (.str "Another?") "income_sources" [] [.obj [(.s "amount", .int 3000)]]
    (.obj [(.s "income_sources", .arr [.obj [(.s "amount", .int 3000)], .obj []]),
           (.s "workflow_runtime", .obj
             [(.s "active_index", .int 2),
              (.s "awaiting_repeat_for", .str "income_sources"),
              (.s "repeat_prompt", .str "Another?")])])
    [] 1
    (by rfl) (by decide) (by rfl) (by decide) (by rfl) (Or.inl (by rfl)) (by rfl)
    (by decide) (Or.inl (by rfl)) (by rfl) (Or.inl ⟨by rfl, rfl⟩) (by rfl)
